import Mathlib

/-!
Shallow embedding of the history-collector ETL (src/python/main.py) and
verification of the frozen claims about it.

The embedding models:
* the module-level `ASSET_TYPE` derivation (main.py line 23),
* `get_new_file_sequence` (lines 149-172) together with a character-level
  model of Python's `int(s, 16)`, `hex`, `str.replace('0x','')` and
  zero-padding,
* the shard-directory computation inside `download_file` (lines 63-68),
* the retry loop of `download_file` (lines 70-87) with the S3 fetch
  abstracted as an outcome oracle indexed by attempt number,
* the decoded data model (dictionaries produced by the external xdrparser,
  as accessed by `write_to_postgres`), the filter/projection of payment and
  change-trust operations, the SQL statement texts, and the
  pending/committed connection state of psycopg2 (a cursor execute adds
  work to the open transaction; `conn.commit()` makes it durable),
* one iteration of the `main` loop.
-/

/-! ### Configuration (module-level constants read from the environment) -/

/-- The configuration constants the script reads from environment variables
(main.py lines 21-27).  Only the fields the verified code paths use are
modelled. -/
structure HCConfig where
  asset_code : String
  asset_issuer : String
  max_retries : Nat
deriving Repr, DecidableEq

/-- main.py line 23: `ASSET_TYPE = 'alphaNum' + '4' if len(ASSET_CODE) <= 4 else '12'`.
Python's conditional expression binds looser than `+`, so this parses as
`('alphaNum' + '4') if len(ASSET_CODE) <= 4 else '12'`: the else-branch
produces the bare string `"12"`.  `len` on a Python `str` counts characters,
i.e. `String.length`. -/
def ASSET_TYPE (asset_code : String) : String :=
  if asset_code.length ≤ 4 then "alphaNum" ++ "4" else "12"

/-! ### Hexadecimal strings: Python `int(s, 16)`, `hex`, `replace`, padding -/

/-- Value of one hexadecimal digit character, as accepted by Python
`int(s, 16)` (decimal digits, lowercase and uppercase letters); `none` for a
character that is not a hexadecimal digit. -/
def hexDigitVal? (c : Char) : Option Nat :=
  if 48 ≤ c.toNat ∧ c.toNat ≤ 57 then some (c.toNat - 48)
  else if 97 ≤ c.toNat ∧ c.toNat ≤ 102 then some (c.toNat - 87)
  else if 65 ≤ c.toNat ∧ c.toNat ≤ 70 then some (c.toNat - 55)
  else none

/-- Total digit value (defaulting to 0), used to phrase pure folds. -/
def dval (c : Char) : Nat := (hexDigitVal? c).getD 0

/-- `c` is one of the characters `0`-`9` or `a`-`f` (a lowercase hex digit). -/
def isLowerHex (c : Char) : Bool :=
  (48 ≤ c.toNat && c.toNat ≤ 57) || (97 ≤ c.toNat && c.toNat ≤ 102)

/-- Model of Python `int(s, 16)` on plain digit strings: fails (`ValueError`)
on the empty string or on any non-hex-digit character, otherwise folds the
digits most-significant first.  (Python additionally tolerates surrounding
whitespace, a sign, underscores and an `0x` mark, none of which occur in the
file-id strings this program manipulates.) -/
def hexVal? (s : String) : Option Nat :=
  match s.data with
  | [] => none
  | l => l.foldlM (fun a c => (hexDigitVal? c).map (fun d => 16 * a + d)) 0

/-- The lowercase hexadecimal digit character for `d < 16`, as produced by
Python `hex`. -/
def hexDigitChar (d : Nat) : Char :=
  if d < 10 then Char.ofNat (48 + d) else Char.ofNat (87 + d)

/-- Little-endian digit list of `n` in base 16 (empty for 0); `fuel`-driven
structural recursion, with `fuel ≥ n` sufficient. -/
def toHexRevAux : Nat → Nat → List Char
  | 0, _ => []
  | _, 0 => []
  | fuel + 1, n + 1 => hexDigitChar ((n + 1) % 16) :: toHexRevAux fuel ((n + 1) / 16)

/-- The digit characters of Python `hex n` without the `0x` mark:
most-significant first, no leading zeros, `hex 0 = "0x0"`. -/
def pyHexDigits (n : Nat) : List Char :=
  match toHexRevAux n n with
  | [] => ['0']
  | l => l.reverse

/-- Model of Python `s.replace('0x', '')`: remove every non-overlapping
occurrence of the two-character pattern `0x`, scanning left to right. -/
def removeHexMarks : List Char → List Char
  | [] => []
  | [c] => [c]
  | a :: b :: rest =>
    if a = '0' ∧ b = 'x' then removeHexMarks rest
    else a :: removeHexMarks (b :: rest)

/-- main.py line 170: `'0' * (8 - len(new_file_name)) + new_file_name`
(Python multiplies a string by a non-positive count to the empty string,
matching Nat truncated subtraction). -/
def zeroPad8 (l : List Char) : String :=
  String.mk (List.replicate (8 - l.length) '0' ++ l)

/-- One step of a big-endian hexadecimal fold (specification helper used to
state what values hex strings denote). -/
def hexStep (a : Nat) (c : Char) : Nat := 16 * a + dval c

/-- Value denoted by a little-endian hex digit list (specification helper). -/
def parseLE : List Char → Nat
  | [] => 0
  | c :: r => dval c + 16 * parseLE r

/-- main.py lines 149-172, `get_new_file_sequence`: parse the old name as a
base-16 integer, add 64, render with `hex`, drop the `0x` mark with
`replace`, left-pad with `0` to 8 characters.  `none` models the
`ValueError` raised by `int(old_file_name, 16)` on a non-hexadecimal
checkpoint. -/
def get_new_file_sequence (old_file_name : String) : Option String :=
  (hexVal? old_file_name).map (fun v =>
    let v := v + 64
    let hexed := "0x" ++ String.mk (pyHexDigits v)
    let stripped := String.mk (removeHexMarks hexed.data)
    zeroPad8 stripped.data)

/-! ### The shard directory computed by `download_file` (main.py lines 63-68) -/

/-- Python `s.split(sep)` for a single-character separator: `""` splits to
`[""]`, separators delimit (possibly empty) fields. -/
def splitOnChar (sep : Char) : List Char → List (List Char)
  | [] => [[]]
  | c :: rest =>
    let r := splitOnChar sep rest
    if c = sep then [] :: r
    else
      match r with
      | h :: t => (c :: h) :: t
      | [] => [[c]]

/-- The consecutive 2-character groups of a string
(`file_number[i:i+2] for i in range(0, len(file_number), 2)`). -/
def chunk2 : List Char → List (List Char)
  | [] => []
  | [c] => [[c]]
  | a :: b :: rest => [a, b] :: chunk2 rest

/-- Python `'/'.join(...)`. -/
def joinSlash : List (List Char) → List Char
  | [] => []
  | [g] => g
  | g :: rest => g ++ '/' :: joinSlash rest

/-- Python `pat in s` substring containment on strings. -/
def pyContains (pat : List Char) : List Char → Bool
  | [] => pat.isEmpty
  | c :: rest => pat.isPrefixOf (c :: rest) || pyContains pat rest

/-- main.py lines 63-68: take the text after the `-` in the file name, join
its consecutive 2-character groups with `/`, keep the first 9 characters,
and put `ledger/` or `transactions/` in front according to whether the file
name contains `ledger`.  `none` models the `IndexError` of
`file_name.split('-')[1]` when the name has no `-`. -/
def shard_directory (file_name : String) : Option String :=
  match splitOnChar '-' file_name.data with
  | _ :: file_number :: _ =>
    let sub := (joinSlash (chunk2 file_number)).take 9
    some ((if pyContains "ledger".data file_name.data then "ledger/" else "transactions/")
      ++ String.mk sub)
  | _ => none

/-! ### The retry loop of `download_file` (main.py lines 70-87) -/

/-- Outcome of one `s3.download_file` call: success, or a botocore
`ClientError` carrying the integer error code the handler reads from
`e.response['Error']['Code']`. -/
inductive FetchOutcome where
  | ok : FetchOutcome
  | clientError (code : Nat) : FetchOutcome
deriving Repr, DecidableEq

/-- Observable trace of one `download_file` call: whether it returned
normally (`success = true`) or re-raised the last `ClientError`
(`success = false`), how many fetch attempts it made, and how many
`time.sleep(180)` backoffs it executed. -/
structure DownloadResult where
  success : Bool
  attempts : Nat
  sleeps : Nat
deriving Repr, DecidableEq

/-- The body of `for attempt in range(MAX_RETRIES + 1)` (main.py lines
70-87).  `remaining` is `MAX_RETRIES - attempt`, so `remaining = 0` is
exactly the `attempt == MAX_RETRIES` test of line 79: on that final attempt
a `ClientError` is re-raised before the error code is even inspected.  On a
non-final attempt the handler sleeps 180 seconds when the code is 404 and
otherwise falls through, so the loop immediately proceeds to the next
attempt in both cases. -/
def downloadGo (fetch : Nat → FetchOutcome) : Nat → Nat → Nat → DownloadResult
  | attempt, 0, sleeps =>
    match fetch attempt with
    | .ok => ⟨true, attempt + 1, sleeps⟩
    | .clientError _ => ⟨false, attempt + 1, sleeps⟩
  | attempt, remaining + 1, sleeps =>
    match fetch attempt with
    | .ok => ⟨true, attempt + 1, sleeps⟩
    | .clientError code =>
      if code = 404 then downloadGo fetch (attempt + 1) remaining (sleeps + 1)
      else downloadGo fetch (attempt + 1) remaining sleeps

/-- main.py lines 70-87: the retry loop of `download_file`, with the S3
fetch of each attempt abstracted as an oracle from attempt number to
outcome. -/
def download_file (max_retries : Nat) (fetch : Nat → FetchOutcome) : DownloadResult :=
  downloadGo fetch 0 max_retries 0

/-! ### Decoded data model (the dictionary shapes `write_to_postgres` reads)

The xdrparser is an external decoder; these structures record exactly the
keys the script accesses on its output. -/

/-- A value accessed through a trailing `['ed25519']` key (account ids and
issuers in the decoded structures). -/
structure AccountId where
  ed25519 : String
deriving Repr, DecidableEq

/-- The fields read from one populated alpha-num arm of a decoded asset:
`['assetCode']` and `['issuer']['ed25519']`. -/
structure AssetInfo where
  assetCode : String
  issuer : AccountId
deriving Repr, DecidableEq

/-- A decoded asset union: the arm matching the asset's type is populated,
the other is `None`.  (The script only ever subscripts these two keys.) -/
structure Asset where
  alphaNum4 : Option AssetInfo
  alphaNum12 : Option AssetInfo
deriving Repr, DecidableEq

/-- Python dict subscript `asset[key]` on a decoded asset: `none` models the
`KeyError` on a key that is not present (in particular the key `"12"`
produced by `ASSET_TYPE` for configured codes longer than 4 characters),
`some` the stored value, itself `none` when the arm is `None`. -/
def assetIndex (a : Asset) (key : String) : Option (Option AssetInfo) :=
  if key = "alphaNum4" then some a.alphaNum4
  else if key = "alphaNum12" then some a.alphaNum12
  else none

/-- `operation['body']['paymentOp']`: the fields read from a decoded payment
operation. -/
structure PaymentOp where
  asset : Asset
  destination : AccountId
  amount : Nat
deriving Repr, DecidableEq

/-- `operation['body']['changeTrustOp']`: the field read from a decoded
change-trust operation. -/
structure ChangeTrustOp where
  line : Asset
deriving Repr, DecidableEq

/-- `operation['body']`: a union payload with a numeric `['type']` tag; the
script handles type 1 (payment) and type 6 (change trust) and ignores every
other tag. -/
inductive OperationBody where
  | payment (paymentOp : PaymentOp)
  | changeTrust (changeTrustOp : ChangeTrustOp)
  | otherOp (type : Nat)
deriving Repr, DecidableEq

/-- One decoded operation.  `sourceAccount` models the optional
per-operation source override read by
`operation['sourceAccount'][0]['ed25519']`: a missing key (`none`) raises
`KeyError` and an empty list raises `IndexError`; the script treats both as
"no override". -/
structure Operation where
  body : OperationBody
  sourceAccount : Option (List AccountId)
deriving Repr, DecidableEq

/-- `transaction['tx']['memo']`: the memo dictionary, whose `['text']` entry
is `None` or a string. -/
structure Memo where
  text : Option String
deriving Repr, DecidableEq

/-- `transaction['tx']`: the inner transaction fields the script reads. -/
structure TxInner where
  memo : Memo
  sourceAccount : AccountId
  operations : List Operation
deriving Repr, DecidableEq

/-- One element of `transaction_history_entry['txSet']['txs']`: the inner
transaction plus the `['hash']` computed by the decoder. -/
structure SignedTransaction where
  tx : TxInner
  hash : String
deriving Repr, DecidableEq

/-- `transaction_history_entry['txSet']`. -/
structure TxSet where
  txs : List SignedTransaction
deriving Repr, DecidableEq

/-- One decoded transaction-history entry: its `['ledgerSeq']` and its
transaction set. -/
structure TransactionHistoryEntry where
  ledgerSeq : Nat
  txSet : TxSet
deriving Repr, DecidableEq

/-- `ledger['header']['scpValue']`: carries the ledger close time. -/
structure ScpValue where
  closeTime : Nat
deriving Repr, DecidableEq

/-- `ledger['header']`: sequence number and scp value. -/
structure LedgerHeader where
  ledgerSeq : Nat
  scpValue : ScpValue
deriving Repr, DecidableEq

/-- One decoded ledger record. -/
structure LedgerRecord where
  header : LedgerHeader
deriving Repr, DecidableEq

/-- main.py lines 90-92, `get_ledgers_dictionary`: the
`ledgerSeq ↦ closeTime` dictionary, modelled as the association list of the
comprehension's insertions (a Python dict keeps the last value inserted for
a duplicated key). -/
def get_ledgers_dictionary (ledgers : List LedgerRecord) : List (Nat × Nat) :=
  ledgers.map (fun ledger => (ledger.header.ledgerSeq, ledger.header.scpValue.closeTime))

/-- Python `d.get(k)` on the dictionary model: the value of the last
insertion with key `k`, or `None` (`none`) when the key is absent —
`dict.get` does not raise on a missing key. -/
def dictGet (d : List (Nat × Nat)) (k : Nat) : Option Nat :=
  (d.reverse.find? (fun p => p.1 == k)).map (fun p => p.2)

/-! ### Rows, SQL statements, and the connection state -/

/-- The values interpolated into one `INSERT INTO payments` statement
(main.py lines 122-124). -/
structure PaymentRow where
  source : String
  destination : String
  amount : Nat
  memo : Option String
  tx_hash : String
  timestamp : Option Nat
deriving Repr, DecidableEq

/-- The values interpolated into one `INSERT INTO trustlines` statement
(main.py lines 140-141). -/
structure TrustlineRow where
  source : String
  memo : Option String
  tx_hash : String
  timestamp : Option Nat
deriving Repr, DecidableEq

/-- One SQL statement passed to `cur.execute` by `write_to_postgres`. -/
inductive Stmt where
  | insertPayment (r : PaymentRow)
  | insertTrustline (r : TrustlineRow)
  | setLastfile (name : String)
deriving Repr, DecidableEq

/-- The memo term interpolated into the SQL text:
`"'" + memo + "'" if memo is not None else 'NULL'` — a quoted string for a
present memo, the bare SQL keyword `NULL` otherwise (never the literal text
`'null'`). -/
def memoLiteral : Option String → String
  | some m => "\x27" ++ m ++ "\x27"
  | none => "NULL"

/-- Python `str.format` of the timestamp slot: an integer renders in
decimal, `None` renders as the four characters `None`. -/
def pyFormat : Option Nat → String
  | some n => toString n
  | none => "None"

/-- The exact SQL text `cur.execute` receives for each statement (main.py
lines 122-124, 140-141 and 144; `\x27` is the single-quote character the
format strings contain). -/
def sqlOfStmt : Stmt → String
  | .insertPayment r =>
    ("INSERT INTO payments VALUES (\x27" ++ r.source ++ "\x27,\x27" ++ r.destination
      ++ "\x27," ++ toString r.amount ++ "," ++ memoLiteral r.memo ++ ",\x27" ++ r.tx_hash
      ++ "\x27,") ++ ("to_timestamp(" ++ pyFormat r.timestamp ++ "));")
  | .insertTrustline r =>
    ("INSERT INTO trustlines VALUES (\x27" ++ r.source ++ "\x27, " ++ memoLiteral r.memo
      ++ ", \x27" ++ r.tx_hash ++ "\x27,") ++ ("to_timestamp(" ++ pyFormat r.timestamp ++ "));")
  | .setLastfile name => "UPDATE lastfile SET name = \x27" ++ name ++ "\x27"

/-- The relational store state the script touches: the two row tables (in
insertion order) and the single-row `lastfile` checkpoint table. -/
structure DB where
  payments : List PaymentRow
  trustlines : List TrustlineRow
  lastfile : String
deriving Repr, DecidableEq

/-- Effect of one statement on a database state. -/
def applyStmt (db : DB) : Stmt → DB
  | .insertPayment r => { db with payments := db.payments ++ [r] }
  | .insertTrustline r => { db with trustlines := db.trustlines ++ [r] }
  | .setLastfile name => { db with lastfile := name }

/-- A psycopg2 connection: `committed` is the durable database state,
`pending` the state including the statements executed in the open (not yet
committed) transaction, `count` the number of `cur.execute` calls made so
far (the index fed to the failure oracle). -/
structure PGConn where
  committed : DB
  pending : DB
  count : Nat
deriving Repr, DecidableEq

/-- In-flight execution state inside `write_to_postgres`: the pending
database state and the running execute count. -/
structure Exec where
  db : DB
  count : Nat
deriving Repr, DecidableEq

/-- One `cur.execute` call: the failure oracle `fail` decides (by execute
index) whether the statement raises — a raised statement changes nothing
durable; a successful one adds its effect to the open transaction. -/
def executeStmt (fail : Nat → Bool) (s : Stmt) (e : Exec) : Except Unit Exec :=
  if fail e.count then .error () else .ok ⟨applyStmt e.db s, e.count + 1⟩

/-- Execute a batch of statements in order, stopping at the first raise. -/
def execStmts (fail : Nat → Bool) : List Stmt → Exec → Except Unit Exec
  | [], e => .ok e
  | s :: rest, e =>
    match executeStmt fail s e with
    | .error u => .error u
    | .ok e2 => execStmts fail rest e2

/-- Sequential iteration of an effectful loop body over a list (a Python
`for` loop whose body may raise): stop at the first raise, otherwise thread
the execution state through. -/
def execList (f : α → Exec → Except Unit Exec) : List α → Exec → Except Unit Exec
  | [], e => .ok e
  | a :: t, e =>
    match f a e with
    | .error u => .error u
    | .ok e2 => execList f t e2

/-! ### The filter/projection of `write_to_postgres` (main.py lines 95-146) -/

/-- The asset test of main.py lines 109-111 / 129-131:
`asset[ASSET_TYPE] is not None and asset[ASSET_TYPE]['assetCode'] == ASSET_CODE
and asset[ASSET_TYPE]['issuer']['ed25519'] == ASSET_ISSUER`.
`none` models a `KeyError` raised by the subscript itself; `some b` the
boolean outcome of the (short-circuiting) conjunction. -/
def asset_matches (cfg : HCConfig) (a : Asset) : Option Bool :=
  match assetIndex a (ASSET_TYPE cfg.asset_code) with
  | none => none
  | some none => some false
  | some (some info) =>
    some (info.assetCode == cfg.asset_code && info.issuer.ed25519 == cfg.asset_issuer)

/-- The source-override fallback (main.py lines 116-120 / 134-138): start
from the transaction source, replace it with
`operation['sourceAccount'][0]['ed25519']`, and keep the transaction source
on `KeyError` (missing key) or `IndexError` (empty list). -/
def opSource (transaction_source : String) (operation : Operation) : String :=
  match operation.sourceAccount with
  | some (a :: _) => a.ed25519
  | _ => transaction_source

/-- The body of the innermost loop of `write_to_postgres` (main.py lines
105-141) for one operation: the statements it executes — one insert when
the operation is a matching payment or change trust, none otherwise — or an
error when the asset subscript raises `KeyError`. -/
def processOperation (cfg : HCConfig) (timestamp : Option Nat) (memo : Option String)
    (tx_hash : String) (transaction_source : String) (operation : Operation) :
    Except Unit (List Stmt) :=
  match operation.body with
  | .payment p =>
    match asset_matches cfg p.asset with
    | none => .error ()
    | some false => .ok []
    | some true =>
      .ok [Stmt.insertPayment
        { source := opSource transaction_source operation
          destination := p.destination.ed25519
          amount := p.amount
          memo := memo
          tx_hash := tx_hash
          timestamp := timestamp }]
  | .changeTrust t =>
    match asset_matches cfg t.line with
    | none => .error ()
    | some false => .ok []
    | some true =>
      .ok [Stmt.insertTrustline
        { source := opSource transaction_source operation
          memo := memo
          tx_hash := tx_hash
          timestamp := timestamp }]
  | .otherOp _ => .ok []

/-- One pass of the innermost loop including execution: compute the
operation's statements (a raise there propagates) and execute them. -/
def execOp (cfg : HCConfig) (fail : Nat → Bool) (timestamp : Option Nat) (memo : Option String)
    (tx_hash : String) (transaction_source : String) (operation : Operation) (e : Exec) :
    Except Unit Exec :=
  match processOperation cfg timestamp memo tx_hash transaction_source operation with
  | .error u => .error u
  | .ok stmts => execStmts fail stmts e

/-- The per-transaction loop (main.py lines 101-141): read the memo text and
hash once, then process each operation in order, executing its statements. -/
def processTransaction (cfg : HCConfig) (fail : Nat → Bool) (timestamp : Option Nat)
    (transaction : SignedTransaction) (e : Exec) : Except Unit Exec :=
  execList
    (execOp cfg fail timestamp transaction.tx.memo.text transaction.hash
      transaction.tx.sourceAccount.ed25519)
    transaction.tx.operations e

/-- The per-entry loop (main.py lines 98-141): look the close time up with
`dict.get` (silently `None` when the ledger sequence is absent), then
process each transaction of the entry. -/
def processEntry (cfg : HCConfig) (fail : Nat → Bool) (ledgers_dictionary : List (Nat × Nat))
    (entry : TransactionHistoryEntry) (e : Exec) : Except Unit Exec :=
  execList (processTransaction cfg fail (dictGet ledgers_dictionary entry.ledgerSeq))
    entry.txSet.txs e

/-- main.py lines 95-146, `write_to_postgres`: execute all row inserts of
the file, then the `UPDATE lastfile` checkpoint statement, then
`conn.commit()`.  An exception anywhere before the commit propagates
(`false` flag) and leaves the durable state exactly as it was — the commit
on line 145 is the only point at which pending work becomes durable. -/
def write_to_postgres (cfg : HCConfig) (fail : Nat → Bool)
    (transactions : List TransactionHistoryEntry) (ledgers_dictionary : List (Nat × Nat))
    (file_name : String) (conn : PGConn) : PGConn × Bool :=
  match execList (processEntry cfg fail ledgers_dictionary) transactions
      ⟨conn.pending, conn.count⟩ with
  | .error _ => (conn, false)
  | .ok e =>
    match executeStmt fail (.setLastfile file_name) e with
    | .error _ => (conn, false)
    | .ok e2 => (⟨e2.db, e2.db, e2.count⟩, true)

/-! ### Pure statement collectors (the projection, separated from execution) -/

/-- Collect the statement lists produced by `g` over a list, in order,
propagating the first error. -/
def collectStmts (g : α → Except Unit (List Stmt)) : List α → Except Unit (List Stmt)
  | [] => .ok []
  | a :: t =>
    match g a with
    | .error u => .error u
    | .ok s =>
      match collectStmts g t with
      | .error u => .error u
      | .ok rest => .ok (s ++ rest)

/-- The insert statements of one transaction, in operation order. -/
def txStmts (cfg : HCConfig) (timestamp : Option Nat) (transaction : SignedTransaction) :
    Except Unit (List Stmt) :=
  collectStmts
    (fun operation => processOperation cfg timestamp transaction.tx.memo.text transaction.hash
      transaction.tx.sourceAccount.ed25519 operation)
    transaction.tx.operations

/-- The insert statements of one transaction-history entry. -/
def entryStmts (cfg : HCConfig) (ledgers_dictionary : List (Nat × Nat))
    (entry : TransactionHistoryEntry) : Except Unit (List Stmt) :=
  collectStmts (txStmts cfg (dictGet ledgers_dictionary entry.ledgerSeq)) entry.txSet.txs

/-- All insert statements `write_to_postgres` produces for one file (not
including the final `UPDATE lastfile`). -/
def fileStmts (cfg : HCConfig) (ledgers_dictionary : List (Nat × Nat))
    (transactions : List TransactionHistoryEntry) : Except Unit (List Stmt) :=
  collectStmts (entryStmts cfg ledgers_dictionary) transactions

/-- The payment rows of a statement list, in order. -/
def stmtsPayments (stmts : List Stmt) : List PaymentRow :=
  stmts.filterMap (fun s => match s with | .insertPayment r => some r | _ => none)

/-- The trustline rows of a statement list, in order. -/
def stmtsTrustlines (stmts : List Stmt) : List TrustlineRow :=
  stmts.filterMap (fun s => match s with | .insertTrustline r => some r | _ => none)

/-- The timestamp a statement carries (`none` for the checkpoint update,
which carries no timestamp). -/
def stmtTimestamp : Stmt → Option (Option Nat)
  | .insertPayment r => some r.timestamp
  | .insertTrustline r => some r.timestamp
  | .setLastfile _ => none

/-! ### One iteration of the `main` loop (main.py lines 184-206) -/

/-- One pass of the `while True` loop of `main`: download the ledger and
transactions files (the two fetch oracles give each attempt's outcome; a
raise kills the process, `none`), decode (the decoder is external, so its
output is a parameter), build the close-time dictionary, write and
checkpoint, and only then compute the next file id in memory.  On success
it returns the new connection state and the next in-memory cursor. -/
def main_iteration (cfg : HCConfig) (fail : Nat → Bool)
    (fetchLedger fetchTx : Nat → FetchOutcome) (ledgers : List LedgerRecord)
    (transactions : List TransactionHistoryEntry) (conn : PGConn)
    (file_sequence : String) : Option (PGConn × String) :=
  if (download_file cfg.max_retries fetchLedger).success = false then none
  else if (download_file cfg.max_retries fetchTx).success = false then none
  else
    match write_to_postgres cfg fail transactions (get_ledgers_dictionary ledgers)
        file_sequence conn with
    | (_, false) => none
    | (conn2, true) =>
      (get_new_file_sequence file_sequence).map (fun next => (conn2, next))

/-! ### Concrete instances used by witnesses -/

/-- A concrete configuration with a short (≤ 4 characters) asset code. -/
def cfg0 : HCConfig := { asset_code := "KIN", asset_issuer := "ISSUER", max_retries := 0 }

/-- A concrete starting connection state. -/
def conn0 : PGConn :=
  { committed := { payments := [], trustlines := [], lastfile := "00000000" }
    pending := { payments := [], trustlines := [], lastfile := "00000000" }
    count := 0 }

/-- A concrete decoded asset matching the configured target of `cfg0`. -/
def asset0 : Asset :=
  { alphaNum4 := some { assetCode := "KIN", issuer := { ed25519 := "ISSUER" } }
    alphaNum12 := none }

/-- A concrete payment operation payload on `asset0`. -/
def pay0 : PaymentOp :=
  { asset := asset0, destination := { ed25519 := "D" }, amount := 7 }

/-- A concrete payment operation with no source override. -/
def op0 : Operation := { body := OperationBody.payment pay0, sourceAccount := none }

/-- A concrete payment operation with a source override. -/
def opOv : Operation :=
  { body := OperationBody.payment pay0, sourceAccount := some [{ ed25519 := "OVR" }] }

/-- The payment row produced for `op0` inside `entry0` when the close-time
lookup misses (timestamp `None`). -/
def row0 : PaymentRow :=
  { source := "S", destination := "D", amount := 7, memo := none, tx_hash := "H"
    timestamp := none }

/-- A concrete decoded transaction-history entry: ledger sequence 5, one
transaction (`None` memo, hash `H`, source `S`) holding `op0` only. -/
def entry0 : TransactionHistoryEntry :=
  { ledgerSeq := 5
    txSet :=
      { txs := [{ tx :=
                    { memo := { text := none }
                      sourceAccount := { ed25519 := "S" }
                      operations := [op0] }
                  hash := "H" }] } }

/-! ## Lemmas about the retry loop -/

theorem downloadGo_ok_head (fetch : Nat → FetchOutcome) (attempt r s : Nat)
    (h : fetch attempt = .ok) : downloadGo fetch attempt r s = ⟨true, attempt + 1, s⟩ := by
  cases r <;> simp [downloadGo, h]

theorem downloadGo_success_after_404 (fetch : Nat → FetchOutcome) :
    ∀ i r attempt s : Nat, i ≤ r →
      (∀ j, j < i → fetch (attempt + j) = .clientError 404) →
      fetch (attempt + i) = .ok →
      downloadGo fetch attempt r s = ⟨true, attempt + i + 1, s + i⟩ := by
  intro i
  induction i with
  | zero =>
    intro r attempt s _ _ hok
    simpa using downloadGo_ok_head fetch attempt r s (by simpa using hok)
  | succ i ih =>
    intro r attempt s hle h404 hok
    obtain ⟨r2, rfl⟩ : ∃ r2, r = r2 + 1 := ⟨r - 1, by omega⟩
    have h0 : fetch attempt = .clientError 404 := by simpa using h404 0 (by omega)
    have hstep : downloadGo fetch attempt (r2 + 1) s = downloadGo fetch (attempt + 1) r2 (s + 1) := by
      simp [downloadGo, h0]
    rw [hstep]
    have hrec := ih r2 (attempt + 1) (s + 1) (by omega)
      (fun j hj => by
        have h := h404 (j + 1) (by omega)
        rw [show attempt + (j + 1) = attempt + 1 + j by omega] at h
        exact h)
      (by
        rw [show attempt + (i + 1) = attempt + 1 + i by omega] at hok
        exact hok)
    rw [hrec]
    congr 1 <;> omega

theorem downloadGo_success_after_non404 (fetch : Nat → FetchOutcome) :
    ∀ i r attempt s : Nat, i < r →
      (∀ j, j ≤ i → ∃ c, fetch (attempt + j) = .clientError c ∧ c ≠ 404) →
      fetch (attempt + i + 1) = .ok →
      downloadGo fetch attempt r s = ⟨true, attempt + i + 2, s⟩ := by
  intro i
  induction i with
  | zero =>
    intro r attempt s hlt herr hok
    obtain ⟨r2, rfl⟩ : ∃ r2, r = r2 + 1 := ⟨r - 1, by omega⟩
    obtain ⟨c, hc, hc404⟩ := herr 0 (by omega)
    rw [show attempt + 0 = attempt by omega] at hc
    have hstep : downloadGo fetch attempt (r2 + 1) s = downloadGo fetch (attempt + 1) r2 s := by
      simp [downloadGo, hc, hc404]
    rw [hstep]
    rw [show attempt + 0 + 1 = attempt + 1 by omega] at hok
    simpa using downloadGo_ok_head fetch (attempt + 1) r2 s hok
  | succ i ih =>
    intro r attempt s hlt herr hok
    obtain ⟨r2, rfl⟩ : ∃ r2, r = r2 + 1 := ⟨r - 1, by omega⟩
    obtain ⟨c, hc, hc404⟩ := herr 0 (by omega)
    rw [show attempt + 0 = attempt by omega] at hc
    have hstep : downloadGo fetch attempt (r2 + 1) s = downloadGo fetch (attempt + 1) r2 s := by
      simp [downloadGo, hc, hc404]
    rw [hstep]
    have hrec := ih r2 (attempt + 1) s (by omega)
      (fun j hj => by
        obtain ⟨d, hd, hd404⟩ := herr (j + 1) (by omega)
        rw [show attempt + (j + 1) = attempt + 1 + j by omega] at hd
        exact ⟨d, hd, hd404⟩)
      (by
        rw [show attempt + (i + 1) + 1 = attempt + 1 + i + 1 by omega] at hok
        exact hok)
    rw [hrec]
    congr 1 <;> omega

theorem downloadGo_all_fail (fetch : Nat → FetchOutcome) :
    ∀ r attempt s : Nat, (∀ j, j ≤ r → ∃ c, fetch (attempt + j) = .clientError c) →
      (downloadGo fetch attempt r s).success = false := by
  intro r
  induction r with
  | zero =>
    intro attempt s herr
    obtain ⟨c, hc⟩ := herr 0 (by omega)
    rw [show attempt + 0 = attempt by omega] at hc
    simp [downloadGo, hc]
  | succ r ih =>
    intro attempt s herr
    obtain ⟨c, hc⟩ := herr 0 (by omega)
    rw [show attempt + 0 = attempt by omega] at hc
    have hshift : ∀ j, j ≤ r → ∃ d, fetch (attempt + 1 + j) = .clientError d := by
      intro j hj
      obtain ⟨d, hd⟩ := herr (j + 1) (by omega)
      rw [show attempt + (j + 1) = attempt + 1 + j by omega] at hd
      exact ⟨d, hd⟩
    by_cases h404 : c = 404 <;>
      simp [downloadGo, hc, h404, ih (attempt + 1) _ hshift]

theorem downloadGo_all_fail_404 (fetch : Nat → FetchOutcome) :
    ∀ r attempt s : Nat, (∀ j, j < r → fetch (attempt + j) = .clientError 404) →
      (∃ c, fetch (attempt + r) = .clientError c) →
      downloadGo fetch attempt r s = ⟨false, attempt + r + 1, s + r⟩ := by
  intro r
  induction r with
  | zero =>
    intro attempt s _ hfin
    obtain ⟨c, hc⟩ := hfin
    rw [show attempt + 0 = attempt by omega] at hc
    simp [downloadGo, hc]
  | succ r ih =>
    intro attempt s h404 hfin
    have h0 : fetch attempt = .clientError 404 := by simpa using h404 0 (by omega)
    have hstep : downloadGo fetch attempt (r + 1) s = downloadGo fetch (attempt + 1) r (s + 1) := by
      simp [downloadGo, h0]
    rw [hstep]
    have hrec := ih (attempt + 1) (s + 1)
      (fun j hj => by
        have h := h404 (j + 1) (by omega)
        rw [show attempt + (j + 1) = attempt + 1 + j by omega] at h
        exact h)
      (by
        obtain ⟨c, hc⟩ := hfin
        rw [show attempt + (r + 1) = attempt + 1 + r by omega] at hc
        exact ⟨c, hc⟩)
    rw [hrec]
    congr 1 <;> omega

theorem downloadGo_attempts_le (fetch : Nat → FetchOutcome) :
    ∀ r attempt s : Nat, (downloadGo fetch attempt r s).attempts ≤ attempt + r + 1 := by
  intro r
  induction r with
  | zero =>
    intro attempt s
    cases h : fetch attempt <;> simp [downloadGo, h]
  | succ r ih =>
    intro attempt s
    cases h : fetch attempt with
    | ok => simp [downloadGo, h]
    | clientError c =>
      by_cases h404 : c = 404 <;> simp [downloadGo, h, h404] <;>
        calc (downloadGo fetch (attempt + 1) r _).attempts ≤ attempt + 1 + r + 1 := ih _ _
          _ ≤ attempt + (r + 1) + 1 := by omega

/-! ## Lemmas about hexadecimal file ids -/

theorem hexDigitVal_hexDigitChar : ∀ d < 16, hexDigitVal? (hexDigitChar d) = some d := by
  decide

theorem isLowerHex_hexDigitChar : ∀ d < 16, isLowerHex (hexDigitChar d) = true := by
  decide

theorem dval_hexDigitChar (d : Nat) (h : d < 16) : dval (hexDigitChar d) = d := by
  simp [dval, hexDigitVal_hexDigitChar d h]

theorem isLowerHex_hexDigitVal (c : Char) (h : isLowerHex c = true) :
    hexDigitVal? c = some (dval c) := by
  simp only [isLowerHex, Bool.or_eq_true, Bool.and_eq_true, decide_eq_true_iff] at h
  simp only [hexDigitVal?, dval]
  rcases h with ⟨h1, h2⟩ | ⟨h1, h2⟩
  · rw [if_pos ⟨h1, h2⟩]; rfl
  · rw [if_neg (by omega), if_pos ⟨h1, h2⟩]; rfl

theorem isLowerHex_dval_lt (c : Char) (h : isLowerHex c = true) : dval c < 16 := by
  simp only [isLowerHex, Bool.or_eq_true, Bool.and_eq_true, decide_eq_true_iff] at h
  simp only [dval, hexDigitVal?]
  rcases h with ⟨h1, h2⟩ | ⟨h1, h2⟩
  · rw [if_pos ⟨h1, h2⟩]; simp; omega
  · rw [if_neg (by omega), if_pos ⟨h1, h2⟩]; simp; omega

theorem isLowerHex_ne_x (c : Char) (h : isLowerHex c = true) : c ≠ 'x' := by
  intro heq; subst heq; revert h; decide

theorem toHexRevAux_mem :
    ∀ fuel n c, c ∈ toHexRevAux fuel n → isLowerHex c = true := by
  intro fuel
  induction fuel with
  | zero => intro n c hc; simp [toHexRevAux] at hc
  | succ fuel ih =>
    intro n c hc
    cases n with
    | zero => simp [toHexRevAux] at hc
    | succ n =>
      simp only [toHexRevAux, List.mem_cons] at hc
      rcases hc with rfl | hc
      · exact isLowerHex_hexDigitChar _ (Nat.mod_lt _ (by omega))
      · exact ih _ _ hc

theorem toHexRevAux_eq_nil :
    ∀ fuel n, n ≤ fuel → (toHexRevAux fuel n = [] ↔ n = 0) := by
  intro fuel n h
  cases n with
  | zero => cases fuel <;> simp [toHexRevAux]
  | succ n =>
    obtain ⟨f2, rfl⟩ : ∃ f2, fuel = f2 + 1 := ⟨fuel - 1, by omega⟩
    simp [toHexRevAux]

theorem toHexRevAux_length :
    ∀ fuel n k, n ≤ fuel → n < 16 ^ k → (toHexRevAux fuel n).length ≤ k := by
  intro fuel
  induction fuel with
  | zero => intro n k h1 _; interval_cases n; simp [toHexRevAux]
  | succ fuel ih =>
    intro n k h1 h2
    cases n with
    | zero => simp [toHexRevAux]
    | succ n =>
      cases k with
      | zero => simp at h2
      | succ k =>
        simp only [toHexRevAux, List.length_cons]
        have hdiv : (n + 1) / 16 ≤ fuel := by
          have := Nat.div_lt_self (show 0 < n + 1 by omega) (show 1 < 16 by omega)
          omega
        have hlt : (n + 1) / 16 < 16 ^ k := by
          rw [Nat.div_lt_iff_lt_mul (by omega)]
          calc n + 1 < 16 ^ (k + 1) := h2
            _ = 16 ^ k * 16 := by ring
        have := ih ((n + 1) / 16) k hdiv hlt
        omega

theorem toHexRevAux_parseLE :
    ∀ fuel n, n ≤ fuel → parseLE (toHexRevAux fuel n) = n := by
  intro fuel
  induction fuel with
  | zero => intro n h; interval_cases n; simp [toHexRevAux, parseLE]
  | succ fuel ih =>
    intro n h
    cases n with
    | zero => simp [toHexRevAux, parseLE]
    | succ n =>
      have hdiv : (n + 1) / 16 ≤ fuel := by
        have := Nat.div_lt_self (show 0 < n + 1 by omega) (show 1 < 16 by omega)
        omega
      simp only [toHexRevAux, parseLE, ih _ hdiv,
        dval_hexDigitChar _ (Nat.mod_lt _ (show 0 < 16 by omega))]
      omega

theorem foldl_hexStep_reverse (l : List Char) :
    ∀ a, l.reverse.foldl hexStep a = a * 16 ^ l.length + parseLE l := by
  induction l with
  | nil => intro a; simp [parseLE]
  | cons c r ih =>
    intro a
    simp only [List.reverse_cons, List.foldl_append, List.foldl_cons, List.foldl_nil, ih,
      parseLE, List.length_cons, hexStep]
    ring

theorem pyHexDigits_lowerHex (n : Nat) : ∀ c ∈ pyHexDigits n, isLowerHex c = true := by
  intro c hc
  unfold pyHexDigits at hc
  split at hc
  · simp at hc; subst hc; decide
  · exact toHexRevAux_mem _ _ _ (List.mem_reverse.mp hc)

theorem pyHexDigits_ne_nil (n : Nat) : pyHexDigits n ≠ [] := by
  unfold pyHexDigits
  split
  · simp
  · next hl => simpa [List.reverse_eq_nil_iff] using hl

theorem pyHexDigits_length_le (n k : Nat) (hk : 1 ≤ k) (h : n < 16 ^ k) :
    (pyHexDigits n).length ≤ k := by
  unfold pyHexDigits
  split
  · simpa using hk
  · rw [List.length_reverse]
    exact toHexRevAux_length n n k (Nat.le_refl n) h

theorem pyHexDigits_value (n : Nat) : (pyHexDigits n).foldl hexStep 0 = n := by
  unfold pyHexDigits
  split
  · next hl =>
    have h0 : n = 0 := (toHexRevAux_eq_nil n n (Nat.le_refl n)).mp hl
    subst h0; decide
  · rw [foldl_hexStep_reverse]
    simp [toHexRevAux_parseLE n n (Nat.le_refl n)]

theorem removeHexMarks_no_x (l : List Char) (h : ∀ c ∈ l, c ≠ 'x') :
    removeHexMarks l = l := by
  induction l with
  | nil => simp [removeHexMarks]
  | cons a t ih =>
    cases t with
    | nil => simp [removeHexMarks]
    | cons b r =>
      have hb : b ≠ 'x' := h b (by simp)
      have hcond : ¬(a = '0' ∧ b = 'x') := by rintro ⟨-, h2⟩; exact hb h2
      simp only [removeHexMarks, if_neg hcond]
      rw [ih (fun c hc => h c (List.mem_cons_of_mem a hc))]

theorem foldlM_hexDigits (l : List Char) (h : ∀ c ∈ l, isLowerHex c = true) :
    ∀ a : Nat, l.foldlM (fun a c => (hexDigitVal? c).map (fun d => 16 * a + d)) a
      = some (l.foldl hexStep a) := by
  induction l with
  | nil => intro a; rfl
  | cons c r ih =>
    intro a
    have hc := isLowerHex_hexDigitVal c (h c (by simp))
    rw [List.foldlM_cons, hc]
    simpa [hexStep] using ih (fun d hd => h d (List.mem_cons_of_mem c hd)) (16 * a + dval c)

theorem hexVal_of_lowerHex (s : String) (hne : s.data ≠ [])
    (h : ∀ c ∈ s.data, isLowerHex c = true) :
    hexVal? s = some (s.data.foldl hexStep 0) := by
  unfold hexVal?
  split
  · next heq => exact absurd heq hne
  · exact foldlM_hexDigits _ h 0

theorem foldl_hexStep_replicate (m : Nat) :
    (List.replicate m '0').foldl hexStep 0 = 0 := by
  induction m with
  | zero => rfl
  | succ m ih =>
    rw [List.replicate_succ, List.foldl_cons]
    simpa [hexStep, dval] using ih

theorem hexVal_zeroPad8 (l : List Char) (hne : l ≠ [])
    (h : ∀ c ∈ l, isLowerHex c = true) :
    hexVal? (zeroPad8 l) = some (l.foldl hexStep 0) := by
  have hdata : (zeroPad8 l).data = List.replicate (8 - l.length) '0' ++ l := rfl
  rw [hexVal_of_lowerHex _ (by simp [hdata, hne]) (by
    intro c hc
    rw [hdata] at hc
    rcases List.mem_append.mp hc with hc | hc
    · rw [List.eq_of_mem_replicate hc]; decide
    · exact h c hc)]
  rw [hdata, List.foldl_append, foldl_hexStep_replicate]

theorem zeroPad8_length (l : List Char) (h : l.length ≤ 8) :
    (zeroPad8 l).length = 8 := by
  simp [zeroPad8, String.length]
  omega

theorem get_new_file_sequence_eq (s : String) (n : Nat) (h : hexVal? s = some n) :
    get_new_file_sequence s = some (zeroPad8 (pyHexDigits (n + 64))) := by
  unfold get_new_file_sequence
  rw [h, Option.map_some']
  congr 1
  have hx : ∀ c ∈ pyHexDigits (n + 64), c ≠ 'x' :=
    fun c hc => isLowerHex_ne_x c (pyHexDigits_lowerHex _ c hc)
  show zeroPad8 (removeHexMarks ('0' :: 'x' :: pyHexDigits (n + 64)))
      = zeroPad8 (pyHexDigits (n + 64))
  have hstep : removeHexMarks ('0' :: 'x' :: pyHexDigits (n + 64))
      = removeHexMarks (pyHexDigits (n + 64)) := by
    cases hpd : pyHexDigits (n + 64) with
    | nil => exact absurd hpd (pyHexDigits_ne_nil _)
    | cons a t => simp [removeHexMarks]
  rw [hstep, removeHexMarks_no_x _ hx]

theorem isLowerHex_ne_dash (c : Char) (h : isLowerHex c = true) : c ≠ '-' := by
  intro heq; subst heq; revert h; decide

theorem isLowerHex_ne_l (c : Char) (h : isLowerHex c = true) : c ≠ 'l' := by
  intro heq; subst heq; revert h; decide

/-! ## Lemmas about the shard-directory computation -/

theorem splitOnChar_no_sep (sep : Char) :
    ∀ l : List Char, sep ∉ l → splitOnChar sep l = [l] := by
  intro l
  induction l with
  | nil => intro _; rfl
  | cons c rest ih =>
    intro h
    have hc : c ≠ sep := fun heq => h (heq ▸ List.mem_cons_self c rest)
    have hrest : sep ∉ rest := fun hm => h (List.mem_cons_of_mem c hm)
    simp [splitOnChar, if_neg hc, ih hrest]

theorem splitOnChar_append_sep (sep : Char) :
    ∀ k rest : List Char, sep ∉ k →
      splitOnChar sep (k ++ sep :: rest) = k :: splitOnChar sep rest := by
  intro k
  induction k with
  | nil => intro rest _; simp [splitOnChar]
  | cons c k2 ih =>
    intro rest h
    have hc : c ≠ sep := fun heq => h (heq ▸ List.mem_cons_self c k2)
    have h2 : sep ∉ k2 := fun hm => h (List.mem_cons_of_mem c hm)
    simp [splitOnChar, if_neg hc, ih rest h2]

theorem isPrefixOf_append_self (l t : List Char) : l.isPrefixOf (l ++ t) = true := by
  induction l with
  | nil => simp [List.isPrefixOf]
  | cons c r ih => simpa [List.isPrefixOf] using ih

theorem pyContains_of_head (pat t : List Char) : pyContains pat (pat ++ t) = true := by
  cases pat with
  | nil => cases t <;> simp [pyContains, List.isEmpty]
  | cons c p => simp [pyContains, isPrefixOf_append_self]

theorem pyContains_eq_false_of_head_not_mem (c0 : Char) (pat : List Char) :
    ∀ s : List Char, c0 ∉ s → pyContains (c0 :: pat) s = false := by
  intro s
  induction s with
  | nil => intro _; rfl
  | cons c rest ih =>
    intro h
    have hc : c ≠ c0 := fun heq => h (heq ▸ List.mem_cons_self c rest)
    have hrest : c0 ∉ rest := fun hm => h (List.mem_cons_of_mem c hm)
    have hp : (c0 :: pat).isPrefixOf (c :: rest) = false := by
      simp [List.isPrefixOf]
      intro heq
      exact absurd heq.symm hc
    simp [pyContains, hp, ih hrest]

/-! ## Lemmas about the persistence layer -/

theorem executeStmt_ok (fail : Nat → Bool) (s : Stmt) (e e2 : Exec)
    (h : executeStmt fail s e = .ok e2) : e2.db = applyStmt e.db s := by
  unfold executeStmt at h
  split at h
  · exact absurd h (by simp)
  · injection h with h
    rw [← h]

theorem execStmts_ok (fail : Nat → Bool) :
    ∀ (stmts : List Stmt) (e e2 : Exec), execStmts fail stmts e = .ok e2 →
      e2.db = stmts.foldl applyStmt e.db := by
  intro stmts
  induction stmts with
  | nil =>
    intro e e2 h
    rw [execStmts] at h
    injection h with h
    rw [← h]
    rfl
  | cons s rest ih =>
    intro e e2 h
    rw [execStmts] at h
    split at h
    · exact absurd h (by simp)
    · next e1 he =>
      rw [List.foldl_cons, ← executeStmt_ok fail s e e1 he]
      exact ih e1 e2 h

theorem execList_ok {α : Type} (f : α → Exec → Except Unit Exec)
    (g : α → Except Unit (List Stmt))
    (hfg : ∀ a e e2, f a e = .ok e2 → ∃ s, g a = .ok s ∧ e2.db = s.foldl applyStmt e.db) :
    ∀ (l : List α) (e e2 : Exec), execList f l e = .ok e2 →
      ∃ L, collectStmts g l = .ok L ∧ e2.db = L.foldl applyStmt e.db := by
  intro l
  induction l with
  | nil =>
    intro e e2 h
    rw [execList] at h
    injection h with h
    exact ⟨[], rfl, by rw [← h]; rfl⟩
  | cons a t ih =>
    intro e e2 h
    rw [execList] at h
    split at h
    · exact absurd h (by simp)
    · next e1 he =>
      obtain ⟨s, hg, hdb1⟩ := hfg a e e1 he
      obtain ⟨L, hcol, hdb2⟩ := ih e1 e2 h
      refine ⟨s ++ L, ?_, ?_⟩
      · simp [collectStmts, hg, hcol]
      · rw [hdb2, hdb1, List.foldl_append]

theorem execOp_ok (cfg : HCConfig) (fail : Nat → Bool) (ts : Option Nat) (memo : Option String)
    (hash src : String) (operation : Operation) (e e2 : Exec)
    (h : execOp cfg fail ts memo hash src operation e = .ok e2) :
    ∃ s, processOperation cfg ts memo hash src operation = .ok s ∧
      e2.db = s.foldl applyStmt e.db := by
  rw [execOp] at h
  split at h
  · exact absurd h (by simp)
  · next stmts hp => exact ⟨stmts, hp, execStmts_ok fail stmts e e2 h⟩

theorem processTransaction_ok (cfg : HCConfig) (fail : Nat → Bool) (ts : Option Nat)
    (t : SignedTransaction) (e e2 : Exec)
    (h : processTransaction cfg fail ts t e = .ok e2) :
    ∃ L, txStmts cfg ts t = .ok L ∧ e2.db = L.foldl applyStmt e.db :=
  execList_ok _ _
    (fun operation e e2 h =>
      execOp_ok cfg fail ts t.tx.memo.text t.hash t.tx.sourceAccount.ed25519 operation e e2 h)
    t.tx.operations e e2 h

theorem processEntry_ok (cfg : HCConfig) (fail : Nat → Bool)
    (dict : List (Nat × Nat)) (entry : TransactionHistoryEntry) (e e2 : Exec)
    (h : processEntry cfg fail dict entry e = .ok e2) :
    ∃ L, entryStmts cfg dict entry = .ok L ∧ e2.db = L.foldl applyStmt e.db :=
  execList_ok _ _
    (fun t e e2 h => processTransaction_ok cfg fail (dictGet dict entry.ledgerSeq) t e e2 h)
    entry.txSet.txs e e2 h

theorem execEntries_ok (cfg : HCConfig) (fail : Nat → Bool)
    (dict : List (Nat × Nat)) (transactions : List TransactionHistoryEntry) (e e2 : Exec)
    (h : execList (processEntry cfg fail dict) transactions e = .ok e2) :
    ∃ L, fileStmts cfg dict transactions = .ok L ∧ e2.db = L.foldl applyStmt e.db :=
  execList_ok _ _
    (fun entry e e2 h => processEntry_ok cfg fail dict entry e e2 h)
    transactions e e2 h

theorem foldl_applyStmt_payments (L : List Stmt) :
    ∀ db : DB, (L.foldl applyStmt db).payments = db.payments ++ stmtsPayments L := by
  induction L with
  | nil => intro db; simp [stmtsPayments]
  | cons s rest ih =>
    intro db
    rw [List.foldl_cons, ih]
    cases s <;> simp [applyStmt, stmtsPayments]

theorem foldl_applyStmt_trustlines (L : List Stmt) :
    ∀ db : DB, (L.foldl applyStmt db).trustlines = db.trustlines ++ stmtsTrustlines L := by
  induction L with
  | nil => intro db; simp [stmtsTrustlines]
  | cons s rest ih =>
    intro db
    rw [List.foldl_cons, ih]
    cases s <;> simp [applyStmt, stmtsTrustlines]

theorem write_error_conn (cfg : HCConfig) (fail : Nat → Bool)
    (transactions : List TransactionHistoryEntry) (dict : List (Nat × Nat))
    (fname : String) (conn : PGConn) :
    (write_to_postgres cfg fail transactions dict fname conn).2 = false →
    (write_to_postgres cfg fail transactions dict fname conn).1 = conn := by
  rw [write_to_postgres]
  split
  · intro _; rfl
  · split
    · intro _; rfl
    · intro h; exact absurd h (by simp)

theorem write_ok_spec (cfg : HCConfig) (fail : Nat → Bool)
    (transactions : List TransactionHistoryEntry) (dict : List (Nat × Nat))
    (fname : String) (conn conn2 : PGConn)
    (h : write_to_postgres cfg fail transactions dict fname conn = (conn2, true)) :
    ∃ L, fileStmts cfg dict transactions = .ok L ∧
      conn2.committed = applyStmt (L.foldl applyStmt conn.pending) (Stmt.setLastfile fname) := by
  rw [write_to_postgres] at h
  split at h
  · exact absurd h (by simp)
  · next e hentries =>
    split at h
    · exact absurd h (by simp)
    · next e2 hlast =>
      injection h with h1 _
      obtain ⟨L, hL, hdb⟩ :=
        execEntries_ok cfg fail dict transactions ⟨conn.pending, conn.count⟩ e hentries
      refine ⟨L, hL, ?_⟩
      rw [← h1]
      show e2.db = _
      rw [executeStmt_ok fail _ e e2 hlast, hdb]

theorem str_append_assoc (a b c : String) : a ++ b ++ c = a ++ (b ++ c) := by
  cases a with
  | mk la =>
    cases b with
    | mk lb =>
      cases c with
      | mk lc =>
        show String.mk (la ++ lb ++ lc) = String.mk (la ++ (lb ++ lc))
        rw [List.append_assoc]

theorem processOperation_cases (cfg : HCConfig) (ts : Option Nat) (memo : Option String)
    (hash src : String) (operation : Operation) (stmts : List Stmt)
    (h : processOperation cfg ts memo hash src operation = .ok stmts) :
    stmts = [] ∨
    (∃ p, operation.body = .payment p ∧
      stmts = [Stmt.insertPayment
        { source := opSource src operation, destination := p.destination.ed25519
          amount := p.amount, memo := memo, tx_hash := hash, timestamp := ts }]) ∨
    (∃ t, operation.body = .changeTrust t ∧
      stmts = [Stmt.insertTrustline
        { source := opSource src operation, memo := memo, tx_hash := hash
          timestamp := ts }]) := by
  rw [processOperation] at h
  split at h
  · next p hp =>
    split at h
    · exact absurd h (by simp)
    · injection h with h; exact Or.inl h.symm
    · injection h with h
      exact Or.inr (Or.inl ⟨p, hp, h.symm⟩)
  · next t ht =>
    split at h
    · exact absurd h (by simp)
    · injection h with h; exact Or.inl h.symm
    · injection h with h
      exact Or.inr (Or.inr ⟨t, ht, h.symm⟩)
  · injection h with h; exact Or.inl h.symm

theorem sql_timestamp_none_suffix (s : Stmt) (hts : stmtTimestamp s = some none) :
    ∃ x : String, sqlOfStmt s = x ++ "to_timestamp(None));" := by
  cases s with
  | insertPayment r =>
    have hr : r.timestamp = none := by simpa [stmtTimestamp] using hts
    refine ⟨"INSERT INTO payments VALUES (\x27" ++ r.source ++ "\x27,\x27" ++ r.destination
      ++ "\x27," ++ toString r.amount ++ "," ++ memoLiteral r.memo ++ ",\x27" ++ r.tx_hash
      ++ "\x27,", ?_⟩
    rw [sqlOfStmt, hr]
    congr 1
  | insertTrustline r =>
    have hr : r.timestamp = none := by simpa [stmtTimestamp] using hts
    refine ⟨"INSERT INTO trustlines VALUES (\x27" ++ r.source ++ "\x27, " ++ memoLiteral r.memo
      ++ ", \x27" ++ r.tx_hash ++ "\x27,", ?_⟩
    rw [sqlOfStmt, hr]
    congr 1
  | setLastfile name => simp [stmtTimestamp] at hts

theorem dictGet_eq_none (d : List (Nat × Nat)) (k : Nat) (h : ∀ p ∈ d, p.1 ≠ k) :
    dictGet d k = none := by
  unfold dictGet
  rw [Option.map_eq_none', List.find?_eq_none]
  intro p hp
  simpa using h p (List.mem_reverse.mp hp)

/-! ## Claim theorems -/

/-- C7: `download_file` makes at most `max_retries + 1` fetch attempts; each
non-final attempt failing with 404 is followed by one fixed 180-second
backoff; the fetch succeeds as soon as an attempt succeeds (success on
attempt `i + 1` after `i` 404-failures gives a successful result with `i`
sleeps); and with `max_retries = 1` and 404 on both attempts it raises after
exactly 2 attempts. -/
theorem download_retry_policy (m : Nat) (fetch : Nat → FetchOutcome) (i : Nat)
    (hi : i ≤ m) (hok : fetch i = .ok)
    (h404 : ∀ j, j < i → fetch j = .clientError 404) :
    download_file m fetch = ⟨true, i + 1, i⟩ ∧ i + 1 ≤ m + 1 ∧
      (∀ g : Nat → FetchOutcome, g 0 = .clientError 404 → g 1 = .clientError 404 →
        download_file 1 g = ⟨false, 2, 1⟩) := by
  refine ⟨?_, by omega, ?_⟩
  · have h := downloadGo_success_after_404 fetch i m 0 0 hi
      (fun j hj => by simpa using h404 j hj) (by simpa using hok)
    simpa [download_file] using h
  · intro g hg0 hg1
    have h := downloadGo_all_fail_404 g 1 0 0
      (fun j hj => by
        have : j = 0 := by omega
        simpa [this] using hg0)
      ⟨404, by simpa using hg1⟩
    simpa [download_file] using h

/-- Witness for C7: `max_retries = 2`, 404 on attempts 1 and 2, success on
attempt 3 — the overall fetch succeeds after 3 attempts with 2 sleeps. -/
theorem download_retry_policy_witness :
    download_file 2 (fun j => if j < 2 then FetchOutcome.clientError 404 else .ok)
      = ⟨true, 3, 2⟩ := by
  have h := download_retry_policy 2 (fun j => if j < 2 then FetchOutcome.clientError 404 else .ok)
    2 (by omega) (by simp) (fun j hj => by simp [hj])
  exact h.1

/-- C10: when every non-final attempt fails with 404 and the final attempt
(number `max_retries + 1`) also fails, the error is raised right after that
final attempt with no further backoff: exactly `max_retries + 1` attempts
and exactly one sleep per non-final failed attempt (none after the last). -/
theorem final_attempt_no_sleep (m : Nat) (fetch : Nat → FetchOutcome)
    (h404 : ∀ j, j < m → fetch j = .clientError 404)
    (hfin : ∃ c, fetch m = .clientError c) :
    download_file m fetch = ⟨false, m + 1, m⟩ := by
  have h := downloadGo_all_fail_404 fetch m 0 0
    (fun j hj => by simpa using h404 j hj)
    (by simpa using hfin)
  simpa [download_file] using h

/-- Witness for C10: two attempts, both 404 — raise after attempt 2 having
slept once (after the first attempt only). -/
theorem final_attempt_no_sleep_witness :
    download_file 1 (fun _ => FetchOutcome.clientError 404) = ⟨false, 2, 1⟩ :=
  final_attempt_no_sleep 1 (fun _ => FetchOutcome.clientError 404)
    (fun j hj => rfl) ⟨404, rfl⟩

/-- Counterexample to C2 as stated: with `max_retries = 1`, a ClientError
with code 500 (not 404) on the first attempt does **not** abort the fetch —
a second attempt is made, and its success makes the whole call succeed (2
attempts, no sleep, no propagated error). -/
theorem non404_abort_counterexample :
    download_file 1 (fun j => if j = 0 then FetchOutcome.clientError 500 else .ok)
      = ⟨true, 2, 0⟩ ∧ (500 : Nat) ≠ 404 := by
  exact ⟨rfl, by decide⟩

/-- C2 (amended): a fetch failure whose error code is not 404 on a non-final
attempt does not abort `download_file`: the loop falls through to the next
attempt with no backoff sleep (so non-404 failures followed by a success
yield a successful result with zero sleeps), and the error propagates only
when the final attempt (attempt `max_retries + 1`) also fails. -/
theorem non404_failure_retries (m i : Nat) (fetch : Nat → FetchOutcome)
    (hi : i < m)
    (herr : ∀ j, j ≤ i → ∃ c, fetch j = .clientError c ∧ c ≠ 404)
    (hok : fetch (i + 1) = .ok) :
    download_file m fetch = ⟨true, i + 2, 0⟩ ∧
      (∀ g : Nat → FetchOutcome, (∀ j, j ≤ m → ∃ c, g j = .clientError c) →
        (download_file m g).success = false) := by
  constructor
  · have h := downloadGo_success_after_non404 fetch i m 0 0 hi
      (fun j hj => by simpa using herr j hj) (by simpa using hok)
    simpa [download_file] using h
  · intro g hg
    have h := downloadGo_all_fail g m 0 0 (fun j hj => by simpa using hg j hj)
    simpa [download_file] using h

/-- Witness for the amended C2: `max_retries = 1`, code 500 on attempt 1,
success on attempt 2 — two attempts, zero sleeps, overall success. -/
theorem non404_failure_retries_witness :
    download_file 1 (fun j => if j = 0 then FetchOutcome.clientError 503 else .ok)
      = ⟨true, 2, 0⟩ := by
  have h := non404_failure_retries 1 0 (fun j => if j = 0 then FetchOutcome.clientError 503 else .ok)
    (by omega)
    (fun j hj => ⟨503, by simp [Nat.le_zero.mp hj], by decide⟩)
    (by simp)
  exact h.1

/-- C9: for every id accepted by `int(id, 16)`, `get_new_file_sequence` is
the (deterministic) function returning the hexadecimal rendering of the
value plus 64, left-padded with `0` to at least 8 characters; the value the
returned string denotes is therefore exactly the input's value plus 64, and
`next("00000000") = "00000040"`. -/
theorem sequence_advance_value (s : String) (n : Nat) (h : hexVal? s = some n) :
    get_new_file_sequence s = some (zeroPad8 (pyHexDigits (n + 64))) ∧
    hexVal? (zeroPad8 (pyHexDigits (n + 64))) = some (n + 64) ∧
    get_new_file_sequence "00000000" = some "00000040" := by
  refine ⟨get_new_file_sequence_eq s n h, ?_, by decide⟩
  rw [hexVal_zeroPad8 _ (pyHexDigits_ne_nil _) (pyHexDigits_lowerHex _), pyHexDigits_value]

/-- Witness for C9 at the id `0000003f` (value 63). -/
theorem sequence_advance_value_witness :
    get_new_file_sequence "0000003f" = some (zeroPad8 (pyHexDigits (63 + 64))) ∧
    hexVal? (zeroPad8 (pyHexDigits (63 + 64))) = some (63 + 64) := by
  have h := sequence_advance_value "0000003f" 63 (by rfl)
  exact ⟨h.1, h.2.1⟩

/-- Counterexample to C6 as stated: the input `ffffffc0` is exactly 8
lowercase hex digits, but `get_new_file_sequence` returns the 9-character
string `100000000` — the fixed-width FileId invariant is not preserved at
the upper boundary. -/
theorem fileId_width_counterexample :
    get_new_file_sequence "ffffffc0" = some "100000000" ∧
    ("ffffffc0" : String).length = 8 ∧
    (∀ c ∈ ("ffffffc0" : String).data, isLowerHex c = true) ∧
    ("100000000" : String).length ≠ 8 := by
  exact ⟨by decide, by decide, by decide, by decide⟩

/-- C6 (amended): `get_new_file_sequence` maps an id of 8 lowercase hex
digits to an id of 8 lowercase hex digits provided the incremented value
still fits in 32 bits (value + 64 < 16^8); at the boundary input
`"ffffffc0"` the width 8 is exceeded (the result is `"100000000"`). -/
theorem fileId_width_preserved (s : String) (n : Nat)
    (h8 : s.length = 8) (hhex : ∀ c ∈ s.data, isLowerHex c = true)
    (hval : hexVal? s = some n) (hov : n + 64 < 4294967296) :
    ∃ t, get_new_file_sequence s = some t ∧ t.length = 8 ∧
      ∀ c ∈ t.data, isLowerHex c = true := by
  refine ⟨zeroPad8 (pyHexDigits (n + 64)), get_new_file_sequence_eq s n hval, ?_, ?_⟩
  · refine zeroPad8_length _ (pyHexDigits_length_le _ 8 (by omega) ?_)
    have h16 : (16 : Nat) ^ 8 = 4294967296 := by norm_num
    omega
  · intro c hc
    have hdata : (zeroPad8 (pyHexDigits (n + 64))).data
        = List.replicate (8 - (pyHexDigits (n + 64)).length) '0' ++ pyHexDigits (n + 64) := rfl
    rw [hdata] at hc
    rcases List.mem_append.mp hc with hc | hc
    · rw [List.eq_of_mem_replicate hc]; decide
    · exact pyHexDigits_lowerHex _ c hc

/-- Witness for the amended C6 at the id `004c93bf` (value 5018559). -/
theorem fileId_width_preserved_witness :
    ∃ t, get_new_file_sequence "004c93bf" = some t ∧ t.length = 8 ∧
      ∀ c ∈ t.data, isLowerHex c = true :=
  fileId_width_preserved "004c93bf" 5018559 (by decide) (by decide) (by rfl) (by decide)

/-- C3 (code bug): for a configured asset code of length 5 the module-level
derivation yields the string `12`, not `alphaNum12` — Python parses
`'alphaNum' + '4' if len(ASSET_CODE) <= 4 else '12'` as
`('alphaNum' + '4') if ... else '12'`.  Codes of length at most 4 do get
`alphaNum4`. -/
theorem asset_type_eval :
    ASSET_TYPE "ABCDE" = "12" ∧ ("ABCDE" : String).length = 5 ∧
    "12" ≠ "alphaNum12" ∧ ASSET_TYPE "KIN" = "alphaNum4" := by
  exact ⟨by decide, by decide, by decide, by decide⟩

/-- Counterexample to C5 as stated: the shard path the code derives for id
`004c93bf` with kind `transactions` is `transactions/00/4c/93/` — the first
9 characters of `00/4c/93/bf` include a trailing slash, so it differs from
the claimed `transactions/00/4c/93`. -/
theorem shard_path_counterexample :
    shard_directory "transactions-004c93bf" = some "transactions/00/4c/93/" ∧
    some "transactions/00/4c/93/" ≠ some "transactions/00/4c/93" := by
  exact ⟨by decide, by decide⟩

/-- C5 (amended): for an 8-hex-digit id the derived shard path is the kind
prefix (`ledger/` or `transactions/`) followed by the first 9 characters of
the id's consecutive 2-character groups joined by slashes — which ends in a
slash: for id `004c93bf` with kind `transactions` it is
`transactions/00/4c/93/`. -/
theorem shard_path_amended (c0 c1 c2 c3 c4 c5 c6 c7 : Char)
    (hhex : ∀ c ∈ [c0, c1, c2, c3, c4, c5, c6, c7], isLowerHex c = true) :
    shard_directory ("transactions-" ++ String.mk [c0, c1, c2, c3, c4, c5, c6, c7])
      = some ("transactions/" ++ String.mk [c0, c1, '/', c2, c3, '/', c4, c5, '/']) ∧
    shard_directory ("ledger-" ++ String.mk [c0, c1, c2, c3, c4, c5, c6, c7])
      = some ("ledger/" ++ String.mk [c0, c1, '/', c2, c3, '/', c4, c5, '/']) ∧
    shard_directory "transactions-004c93bf" = some "transactions/00/4c/93/" := by
  have hid : ∀ c ∈ [c0, c1, c2, c3, c4, c5, c6, c7], c ≠ '-' ∧ c ≠ 'l' :=
    fun c hc => ⟨isLowerHex_ne_dash c (hhex c hc), isLowerHex_ne_l c (hhex c hc)⟩
  have hdash : '-' ∉ [c0, c1, c2, c3, c4, c5, c6, c7] := by
    intro hm; exact ((hid '-' hm).1) rfl
  have hl : 'l' ∉ [c0, c1, c2, c3, c4, c5, c6, c7] := by
    intro hm; exact ((hid 'l' hm).2) rfl
  refine ⟨?_, ?_, by decide⟩
  · have hdata : ("transactions-" ++ String.mk [c0, c1, c2, c3, c4, c5, c6, c7]).data
        = "transactions".data ++ '-' :: [c0, c1, c2, c3, c4, c5, c6, c7] := rfl
    have hsplit : splitOnChar '-' ("transactions".data ++ '-' :: [c0, c1, c2, c3, c4, c5, c6, c7])
        = "transactions".data :: [[c0, c1, c2, c3, c4, c5, c6, c7]] := by
      rw [splitOnChar_append_sep '-' _ _ (by decide),
        splitOnChar_no_sep '-' _ hdash]
    have hcont : pyContains "ledger".data
        ("transactions".data ++ '-' :: [c0, c1, c2, c3, c4, c5, c6, c7]) = false := by
      have : 'l' ∉ "transactions".data ++ '-' :: [c0, c1, c2, c3, c4, c5, c6, c7] := by
        intro hm
        rcases List.mem_append.mp hm with hm | hm
        · revert hm; decide
        · rcases List.mem_cons.mp hm with heq | hm
          · exact absurd heq (by decide)
          · exact hl hm
      exact pyContains_eq_false_of_head_not_mem 'l' "edger".data _ this
    unfold shard_directory
    rw [hdata, hsplit, hcont]
    rfl
  · have hdata : ("ledger-" ++ String.mk [c0, c1, c2, c3, c4, c5, c6, c7]).data
        = "ledger".data ++ '-' :: [c0, c1, c2, c3, c4, c5, c6, c7] := rfl
    have hsplit : splitOnChar '-' ("ledger".data ++ '-' :: [c0, c1, c2, c3, c4, c5, c6, c7])
        = "ledger".data :: [[c0, c1, c2, c3, c4, c5, c6, c7]] := by
      rw [splitOnChar_append_sep '-' _ _ (by decide),
        splitOnChar_no_sep '-' _ hdash]
    have hcont : pyContains "ledger".data
        ("ledger".data ++ '-' :: [c0, c1, c2, c3, c4, c5, c6, c7]) = true := by
      exact pyContains_of_head "ledger".data _
    unfold shard_directory
    rw [hdata, hsplit, hcont]
    rfl

/-- Witness for the amended C5 at id `004c93bf`. -/
theorem shard_path_amended_witness :
    shard_directory ("transactions-" ++ String.mk ['0', '0', '4', 'c', '9', '3', 'b', 'f'])
      = some ("transactions/" ++ String.mk ['0', '0', '/', '4', 'c', '/', '9', '3', '/']) :=
  (shard_path_amended '0' '0' '4' 'c' '9' '3' 'b' 'f' (by decide)).1

/-- C1: for every processed file, `write_to_postgres` first executes all
payment/trustline inserts, then the checkpoint update, and commits them as
one unit of work: on any failure before the commit the durable state (in
particular the stored checkpoint) is exactly unchanged; on success the
durable state holds all the file's rows (in order) and the checkpoint holds
the id of the file just processed; the next id is computed only afterwards,
in memory, by `main`. -/
theorem persist_checkpoint_atomic (cfg : HCConfig) (fail : Nat → Bool)
    (transactions : List TransactionHistoryEntry) (dict : List (Nat × Nat))
    (fname : String) (conn : PGConn) :
    ((write_to_postgres cfg fail transactions dict fname conn).2 = false →
      (write_to_postgres cfg fail transactions dict fname conn).1.committed = conn.committed) ∧
    (∀ conn2 : PGConn, write_to_postgres cfg fail transactions dict fname conn = (conn2, true) →
      ∃ L, fileStmts cfg dict transactions = .ok L ∧
        conn2.committed = applyStmt (L.foldl applyStmt conn.pending) (Stmt.setLastfile fname) ∧
        conn2.committed.lastfile = fname ∧
        conn2.committed.payments = conn.pending.payments ++ stmtsPayments L ∧
        conn2.committed.trustlines = conn.pending.trustlines ++ stmtsTrustlines L) ∧
    (∀ (fetchL fetchT : Nat → FetchOutcome) (ledgers : List LedgerRecord) (conn2 : PGConn)
        (next : String),
      main_iteration cfg fail fetchL fetchT ledgers transactions conn fname
        = some (conn2, next) →
      conn2.committed.lastfile = fname ∧ get_new_file_sequence fname = some next) := by
  refine ⟨?_, ?_, ?_⟩
  · intro h
    rw [write_error_conn cfg fail transactions dict fname conn h]
  · intro conn2 h
    obtain ⟨L, hL, hcom⟩ := write_ok_spec cfg fail transactions dict fname conn conn2 h
    refine ⟨L, hL, hcom, ?_, ?_, ?_⟩
    · rw [hcom]; rfl
    · rw [hcom]
      show (L.foldl applyStmt conn.pending).payments = _
      rw [foldl_applyStmt_payments]
    · rw [hcom]
      show (L.foldl applyStmt conn.pending).trustlines = _
      rw [foldl_applyStmt_trustlines]
  · intro fetchL fetchT ledgers conn2 next h
    rw [main_iteration] at h
    split at h
    · exact absurd h (by simp)
    · split at h
      · exact absurd h (by simp)
      · split at h
        · exact absurd h (by simp)
        · next conn3 hw =>
          cases hseq : get_new_file_sequence fname with
          | none => rw [hseq] at h; exact absurd h (by simp)
          | some nx =>
            rw [hseq] at h
            simp only [Option.map_some'] at h
            injection h with h
            injection h with h1 h2
            subst h1
            subst h2
            obtain ⟨L, hL, hcom⟩ :=
              write_ok_spec cfg fail transactions (get_ledgers_dictionary ledgers)
                fname conn conn3 hw
            exact ⟨by rw [hcom]; rfl, rfl⟩

/-- Witness for C1: a successful run (no statement failure, empty batch)
commits the checkpoint `0000003f`, and a failing run leaves the committed
state untouched. -/
theorem persist_checkpoint_atomic_witness :
    (write_to_postgres cfg0 (fun _ => false) [] [] "0000003f" conn0).1.committed.lastfile
      = "0000003f" ∧
    (write_to_postgres cfg0 (fun _ => true) [entry0] [] "0000003f" conn0).1.committed
      = conn0.committed := by
  constructor
  · obtain ⟨L, hL, hcom, hlast, hp, ht⟩ :=
      (persist_checkpoint_atomic cfg0 (fun _ => false) [] [] "0000003f" conn0).2.1
        (write_to_postgres cfg0 (fun _ => false) [] [] "0000003f" conn0).1 (by decide)
    exact hlast
  · exact (persist_checkpoint_atomic cfg0 (fun _ => true) [entry0] [] "0000003f" conn0).1
      (by decide)

/-- Counterexample to C4 as stated: for `entry0` (ledger sequence 5) and a
close-time mapping containing only sequence 100, the lookup misses
(`dict.get` returns `None`), yet no error is signalled: with no statement
failing, `write_to_postgres` returns success and commits a payment row
whose close time is the absent sentinel, whose SQL text reads
`to_timestamp(None)`. -/
theorem closeTime_missing_counterexample :
    dictGet [(100, 1000)] entry0.ledgerSeq = none ∧
    write_to_postgres cfg0 (fun _ => false) [entry0] [(100, 1000)] "0000007f" conn0
      = (⟨⟨[row0], [], "0000007f"⟩, ⟨[row0], [], "0000007f"⟩, 2⟩, true) ∧
    row0.timestamp = none ∧
    sqlOfStmt (.insertPayment row0)
      = "INSERT INTO payments VALUES (\x27S\x27,\x27D\x27,7,NULL,\x27H\x27,to_timestamp(None));" := by
  exact ⟨by decide, by decide, rfl, rfl⟩

/-- C4 (amended): the close time of every emitted row is the result of
looking the transaction's ledger sequence up in the mapping with the
defaulting `dict.get` — a ledger sequence absent from the mapping gives
`None`; the projection does not signal an error in that case but emits the
row anyway, with the absent close time rendered into the SQL text as
`to_timestamp(None)` (any failure then comes from the database executing
that malformed statement, not from the projection). -/
theorem closeTime_lookup_amended (cfg : HCConfig) (ts : Option Nat) (memo : Option String)
    (hash src : String) (operation : Operation) (stmts : List Stmt)
    (h : processOperation cfg ts memo hash src operation = .ok stmts) :
    (∀ s ∈ stmts, stmtTimestamp s = some ts) ∧
    (ts = none → ∀ s ∈ stmts, ∃ x : String, sqlOfStmt s = x ++ "to_timestamp(None));") ∧
    (∀ (d : List (Nat × Nat)) (k : Nat), (∀ p ∈ d, p.1 ≠ k) → dictGet d k = none) := by
  have hts : ∀ s ∈ stmts, stmtTimestamp s = some ts := by
    intro s hs
    rcases processOperation_cases cfg ts memo hash src operation stmts h with
      hnil | ⟨p, _, hstmts⟩ | ⟨t, _, hstmts⟩
    · subst hnil; simp at hs
    · subst hstmts
      rcases List.mem_singleton.mp hs with rfl
      rfl
    · subst hstmts
      rcases List.mem_singleton.mp hs with rfl
      rfl
  refine ⟨hts, ?_, dictGet_eq_none⟩
  intro hnone s hs
  refine sql_timestamp_none_suffix s ?_
  rw [hts s hs, hnone]

/-- Witness for the amended C4 at `op0` with a missing close time. -/
theorem closeTime_lookup_amended_witness :
    ∃ x : String, sqlOfStmt (Stmt.insertPayment row0) = x ++ "to_timestamp(None));" := by
  obtain ⟨h1, h2, h3⟩ :=
    closeTime_lookup_amended cfg0 none none "H" "S" op0 [Stmt.insertPayment row0] (by rfl)
  exact h2 rfl (Stmt.insertPayment row0) (by simp)

/-- C8: for a payment operation whose asset matches the configured target
(code, issuer and populated type arm all equal), the emitted statement is a
single `PaymentRow` insert whose source is the operation's override when one
is present and the transaction's source otherwise, whose destination and
amount are taken verbatim from the operation, whose memo is the transaction
memo (rendered as the SQL keyword `NULL`, never the text `'null'`, when the
memo is `None`) and whose hash is the transaction hash; the same source and
memo rules produce the `TrustlineRow` insert for a matching change-trust
operation. -/
theorem projection_row_fields (cfg : HCConfig) (ts : Option Nat) (memo : Option String)
    (hash src : String) (operation : Operation) (p : PaymentOp)
    (hbody : operation.body = .payment p)
    (hmatch : asset_matches cfg p.asset = some true) :
    processOperation cfg ts memo hash src operation
      = .ok [Stmt.insertPayment
          { source := opSource src operation, destination := p.destination.ed25519
            amount := p.amount, memo := memo, tx_hash := hash, timestamp := ts }] ∧
    (∀ a rest, operation.sourceAccount = some (a :: rest) →
      opSource src operation = a.ed25519) ∧
    (operation.sourceAccount = none ∨ operation.sourceAccount = some [] →
      opSource src operation = src) ∧
    (memo = none → memoLiteral memo = "NULL" ∧ memoLiteral memo ≠ "\x27null\x27") ∧
    (∀ (op2 : Operation) (t : ChangeTrustOp), op2.body = .changeTrust t →
      asset_matches cfg t.line = some true →
      processOperation cfg ts memo hash src op2
        = .ok [Stmt.insertTrustline
            { source := opSource src op2, memo := memo, tx_hash := hash, timestamp := ts }]) := by
  refine ⟨?_, ?_, ?_, ?_, ?_⟩
  · simp [processOperation, hbody, hmatch]
  · intro a rest hov
    simp [opSource, hov]
  · intro hno
    rcases hno with hno | hno <;> simp [opSource, hno]
  · intro hmemo
    subst hmemo
    exact ⟨rfl, by decide⟩
  · intro op2 t hbody2 hmatch2
    simp [processOperation, hbody2, hmatch2]

/-- Witness for C8: a matching payment with a source override emits the
insert with the override as source. -/
theorem projection_row_fields_witness :
    processOperation cfg0 (some 1000) (some "my memo") "H" "S" opOv
      = .ok [Stmt.insertPayment
          { source := opSource "S" opOv, destination := "D", amount := 7
            memo := some "my memo", tx_hash := "H", timestamp := some 1000 }] ∧
    opSource "S" opOv = "OVR" := by
  have h := projection_row_fields cfg0 (some 1000) (some "my memo") "H" "S" opOv pay0
    rfl (by decide)
  exact ⟨h.1, h.2.1 { ed25519 := "OVR" } [] rfl⟩
